import Mathlib

/-!
Verification of the schema-resolution / text-normalization / aggregation /
caching core of `bot.py` against its natural-language specification.

The Python functions are shallowly embedded as executable Lean definitions.
Strings are modelled as Lean `String` / `List Char`; Python's Unicode
operations (`str.lower`, `str.strip`, regex classes `\w` and `\s`) are
modelled character-wise, restricted to the scripts that actually occur in the
program's lexicons (ASCII and Cyrillic); `unicodedata.normalize("NFKC", ·)`
is the identity on those characters and is therefore dropped from the
embedding of `_prenorm`.
-/

namespace Bot

/-- The apostrophe character U+0027, used by `_prenorm` as the unified
apostrophe form. -/
def apostChar : Char := Char.ofNat 39

/-- Code points of the `APOSTS` set in `bot.py`:
`'`, `ʼ`, `’`, `ʹ`, `′`, a backtick, `´`, `ʽ`, `ꞌ`, `ʻ`. -/
def APOSTS : List Nat := [0x27, 0x2BC, 0x2019, 0x2B9, 0x2032, 0x60, 0xB4, 0x2BD, 0xA78C, 0x2BB]

/-- Python whitespace (`str.strip`, regex `\s` with Unicode semantics):
ASCII whitespace and control separators plus the common Unicode space
characters. -/
def isPySpace (c : Char) : Bool :=
  let n := c.toNat
  n = 0x20 || (0x9 ≤ n && n ≤ 0xD) || (0x1C ≤ n && n ≤ 0x1F) || n = 0x85 ||
  n = 0xA0 || n = 0x1680 || (0x2000 ≤ n && n ≤ 0x200A) || n = 0x2028 ||
  n = 0x2029 || n = 0x202F || n = 0x205F || n = 0x3000

/-- Python regex `\w` (Unicode): letters, digits and underscore.  Modelled for
ASCII alphanumerics, underscore, and the Cyrillic block U+0400–U+052F (the
scripts of the program's data); everything else (emoji, punctuation, dashes)
is a non-word character. -/
def isWordChar (c : Char) : Bool :=
  c.isAlphanum || c = '_' || (0x400 ≤ c.toNat && c.toNat ≤ 0x52F)

/-- Python `str.lower`, character-wise, for ASCII and Cyrillic
(U+0400–U+052F, including Ё, Ў, Қ U+049A, Ҳ U+04B2, Ғ U+0492 …).
Other characters are left unchanged. -/
def pyLowerChar (c : Char) : Char :=
  let n := c.toNat
  if 0x41 ≤ n && n ≤ 0x5A then Char.ofNat (n + 0x20)
  else if 0x400 ≤ n && n ≤ 0x40F then Char.ofNat (n + 0x50)
  else if 0x410 ≤ n && n ≤ 0x42F then Char.ofNat (n + 0x20)
  else if 0x460 ≤ n && n ≤ 0x481 && n % 2 = 0 then Char.ofNat (n + 1)
  else if 0x48A ≤ n && n ≤ 0x4BF && n % 2 = 0 then Char.ofNat (n + 1)
  else if n = 0x4C0 then Char.ofNat 0x4CF
  else if 0x4C1 ≤ n && n ≤ 0x4CE && n % 2 = 1 then Char.ofNat (n + 1)
  else if 0x4D0 ≤ n && n ≤ 0x52F && n % 2 = 0 then Char.ofNat (n + 1)
  else c

/-- Python `str.upper` (= title case for these scripts), character-wise,
inverse of `pyLowerChar` on its covered ranges. -/
def pyUpperChar (c : Char) : Char :=
  let n := c.toNat
  if 0x61 ≤ n && n ≤ 0x7A then Char.ofNat (n - 0x20)
  else if 0x450 ≤ n && n ≤ 0x45F then Char.ofNat (n - 0x50)
  else if 0x430 ≤ n && n ≤ 0x44F then Char.ofNat (n - 0x20)
  else if 0x460 ≤ n && n ≤ 0x481 && n % 2 = 1 then Char.ofNat (n - 1)
  else if 0x48A ≤ n && n ≤ 0x4BF && n % 2 = 1 then Char.ofNat (n - 1)
  else if n = 0x4CF then Char.ofNat 0x4C0
  else if 0x4C1 ≤ n && n ≤ 0x4CE && n % 2 = 0 then Char.ofNat (n - 1)
  else if 0x4D0 ≤ n && n ≤ 0x52F && n % 2 = 1 then Char.ofNat (n - 1)
  else c

/-- `str.strip()` on a character list: drop Python whitespace from both
ends. -/
def stripL (l : List Char) : List Char :=
  ((l.dropWhile isPySpace).reverse.dropWhile isPySpace).reverse

/-- Python `str.strip()` on strings. -/
def pyStrip (s : String) : String := ⟨stripL s.toList⟩

/-- Python `str.lower()` on strings (character-wise). -/
def pyLower (s : String) : String := ⟨s.toList.map pyLowerChar⟩

/-- Python `str.capitalize()`: first character upper-cased, the rest
lower-cased. -/
def pyCapitalize (s : String) : String :=
  match s.toList with
  | [] => ""
  | c :: rest => ⟨pyUpperChar c :: rest.map pyLowerChar⟩

/-- `pat.isPrefixOf l` written out so that all lemmas about it are local. -/
def startsWith : List Char → List Char → Bool
  | [], _ => true
  | _ :: _, [] => false
  | a :: as, b :: bs => a = b && startsWith as bs

/-- `occursIn pat l` : `pat` occurs contiguously inside `l`. -/
def occursIn (pat : List Char) : List Char → Bool
  | [] => startsWith pat []
  | c :: rest => startsWith pat (c :: rest) || occursIn pat rest

/-- Python's `needle in hay` on strings. -/
def pyIn (needle hay : String) : Bool := occursIn needle.toList hay.toList

/-- Collapse runs of Python whitespace to a single ASCII space
(`re.sub(r"\s+", " ", s)`); the flag records whether the previous character
was whitespace. -/
def collapseWsAux (prevSpace : Bool) : List Char → List Char
  | [] => []
  | c :: rest =>
    if isPySpace c then
      if prevSpace then collapseWsAux true rest
      else ' ' :: collapseWsAux true rest
    else c :: collapseWsAux false rest

def collapseWs (l : List Char) : List Char := collapseWsAux false l

/-- `_prenorm` of `bot.py`, character-wise: unify apostrophe-like code points
to U+0027 and replace the non-breaking space by an ordinary space.  (The NFKC
step is the identity on the ASCII/Cyrillic inputs modelled here.) -/
def prenormChar (c : Char) : Char :=
  if c.toNat ∈ APOSTS then apostChar
  else if c.toNat = 0xA0 then ' '
  else c

def prenorm (s : String) : String := ⟨s.toList.map prenormChar⟩

/-! ## Configuration data (column aliases), verbatim from `bot.py` -/

def COL_TYPE : String := "Техника тури"
def COL_REGION : String := "Бириктирилган шахар ёки туман"
def COL_STATUS : String := "Холати"

def STATUS_ALIASES : List String :=
  ["Холати", "Ҳолати", "Статус", "Состояние", "Ҳолат", "Holati", "Status",
   "Техника холати", "Техника ҳолати", "Техника статусы", "Техника состояние"]

def TYPE_ALIASES : List String :=
  [COL_TYPE, "Техники тури", "Тип техники", "Тури техника", "Техника тўри",
   "Вид техники", "Наименование техники"]

def REGION_ALIASES : List String :=
  [COL_REGION, "Город/район", "Район", "Туман", "Населенный пункт",
   "Шахар/туман", "Шахар ёки туман"]

def QTY_ALIASES : List String := ["Количество", "Кол-во", "Сони", "Qty", "Count"]

def TRACKER_ALIASES : List String :=
  ["GPS", "Gps", "gps", "Трекер", "Трекер установлен", "Наличие трекера",
   "Наличие GPS", "GPS трекер", "GPS-трекер", "GPS / ГЛОНАСС", "GPS/ГЛОНАСС",
   "GPS билан таъминланганлиги", "GPS билапн таъминланганлиги"]

/-! ## Schema resolver (`_normalize_header`, `_norm_map`, `find_column`) -/

/-- `_normalize_header` of `bot.py`: strip, lower-case, fold `ҳ` (U+04B3) to
`х` (U+0445), remove all whitespace (`re.sub(r"\s+", "", s)`). -/
def normalize_header (s : String) : String :=
  ⟨(((stripL s.toList).map pyLowerChar).map
      (fun c => if c = Char.ofNat 0x4B3 then Char.ofNat 0x445 else c)).filter
    (fun c => !isPySpace c)⟩

/-- Association-list lookup with Python-dict key semantics (first matching
key wins; keys are unique by construction of `upsertA`). -/
def alookup {α : Type} (k : String) : List (String × α) → Option α
  | [] => none
  | (k', v) :: rest => if k' = k then some v else alookup k rest

/-- Python-dict assignment `d[k] = v`: an existing key keeps its position and
gets the new value, a new key is appended.  This reproduces the insertion
order that `dict.items()` iterates in. -/
def upsertA {α : Type} (k : String) (v : α) : List (String × α) → List (String × α)
  | [] => [(k, v)]
  | (k', v') :: rest => if k' = k then (k, v) :: rest else (k', v') :: upsertA k v rest

/-- `_norm_map`: the dict comprehension
`{_normalize_header(c): c for c in cols}` (later columns with the same
normalized form overwrite earlier ones, keeping the first position). -/
def norm_map_aux (m : List (String × String)) : List String → List (String × String)
  | [] => m
  | c :: rest => norm_map_aux (upsertA (normalize_header c) c m) rest

def norm_map (cols : List String) : List (String × String) := norm_map_aux [] cols

/-- Step 1 of `find_column`: the first alias whose normalized form is a key
of the map (exact match after normalization). -/
def findExact (m : List (String × String)) : List String → Option String
  | [] => none
  | a :: rest =>
    match alookup (normalize_header a) m with
    | some orig => some orig
    | none => findExact m rest

/-- One update of the `best` variable in step 2 of `find_column`. -/
def subBetter (ka : String) (nc orig : String) (best : Option String) : Option String :=
  if ka ≠ "" ∧ pyIn ka nc then
    match best with
    | none => some orig
    | some b => if nc.length < (normalize_header b).length then some orig else some b
  else best

/-- Inner loop of step 2: `for nc, orig in norm_cols.items()`. -/
def subInner (ka : String) : List (String × String) → Option String → Option String
  | [], best => best
  | (nc, orig) :: rest, best => subInner ka rest (subBetter ka nc orig best)

/-- Outer loop of step 2: `for a in aliases`; `best` threads through. -/
def subOuter (m : List (String × String)) : List String → Option String → Option String
  | [], best => best
  | a :: rest, best => subOuter m rest (subInner (normalize_header a) m best)

/-- Step 2 of `find_column`: substring match, keeping the match with the
shortest normalized header. -/
def findSubstr (m : List (String × String)) (aliases : List String) : Option String :=
  subOuter m aliases none

/-- The three token sets of step 3 (Python set literals; only membership is
used, so list order is irrelevant). -/
def statusTokens : List String := ["холат", "ҳолат", "holat", "status", "состояние"]
def regionTokens : List String := ["шахар", "туман", "район", "город"]
def typeTokens : List String := ["техника", "тип", "тур", "вид"]

def token_sets : List (List String) := [statusTokens, regionTokens, typeTokens]

/-- Inner loop of step 3: first map entry whose normalized header contains
any token of the set. -/
def findTokSet (toks : List String) : List (String × String) → Option String
  | [] => none
  | (nc, orig) :: rest =>
    if toks.any (fun t => pyIn t nc) then some orig else findTokSet toks rest

/-- Step 3 of `find_column`: the token sets in their fixed order
(status, region, type) — the same sets for every role. -/
def findTok (m : List (String × String)) : List (List String) → Option String
  | [] => none
  | toks :: rest =>
    match findTokSet toks m with
    | some orig => some orig
    | none => findTok m rest

/-- `find_column` of `bot.py`: exact normalized match, then substring match
(shortest normalized header wins), then the token heuristic, else `none`. -/
def find_column (cols : List String) (aliases : List String) : Option String :=
  let m := norm_map cols
  match findExact m aliases with
  | some c => some c
  | none =>
    match findSubstr m aliases with
    | some c => some c
    | none => findTok m token_sets

/-! ## Text normalizer: technical-type classifier (`normalize_tech_type`) -/

/-- The shared pre-normalization of `normalize_tech_type` / `normalize_status`:
`_prenorm`, strip, lower, `re.sub(r"[^\w\s]", " ", s)`,
`re.sub(r"\s+", " ", s).strip()`. -/
def textNorm (s : String) : List Char :=
  stripL (collapseWs
    ((((stripL (s.toList.map prenormChar)).map pyLowerChar).map
        (fun c => if isWordChar c || isPySpace c then c else ' '))))

/-- Strings meaning "total"/"sum"/"all" that mark summary rows. -/
def summary_keywords : List String := ["жами", "итого", "барчаси", "всего", "jami", "all"]

/-- The ordered `type_mapping` dict of `normalize_tech_type`, verbatim. -/
def type_mapping : List (String × String) :=
  [("погрузчик", "Погрузчик"), ("мини бортовой", "Мини бортовой"),
   ("минии бортовой", "Мини бортовой"), ("микро бортовой", "Мини бортовой"),
   ("эвакуатор", "Эвакуатор"), ("хлоровоз", "Хлоровоз"), ("самосвал", "Самосвал"),
   ("экскаватор", "Экскаватор"), ("трактор", "Трактор"), ("бульдозер", "Бульдозер"),
   ("автокран", "Автокран"), ("бетономешалка", "Бетономешалка"),
   ("цистерна", "Цистерна"), ("фургон", "Фургон"), ("рефрижератор", "Рефрижератор"),
   ("гидролинамическая", "Гидродинамическая"), ("гидролинамический", "Гидродинамическая"),
   ("гидродинамическая", "Гидродинамическая"), ("гидродинамический", "Гидродинамическая"),
   ("гидравлическая", "Гидродинамическая"), ("лаболаторная", "Лабораторная"),
   ("лобораторная", "Лабораторная"), ("лабораторная", "Лабораторная"),
   ("камаз", "Камаз"), ("зил", "ЗИЛ"), ("газель", "ГАЗель"), ("уаз", "УАЗ"),
   ("компрессор", "Компрессор"), ("генератор", "Генератор"), ("автобус", "Автобус"),
   ("микроавтобус", "Микроавтобус"), ("машина", "Машина"), ("грузовик", "Грузовик")]

/-- First `type_mapping` key occurring in the normalized text wins (the dict
is scanned in insertion order). -/
def typeMapLookup (normalized : String) : List (String × String) → Option String
  | [] => none
  | (key, standard) :: rest =>
    if pyIn key normalized then some standard else typeMapLookup normalized rest

/-- `normalize_tech_type` of `bot.py`.  `none` models Python `None`
(row excluded upstream).  Non-string inputs (`NaN`) are modelled as the
strings the pipeline actually passes. -/
def normalize_tech_type (tech_type : String) : Option String :=
  if pyStrip tech_type = "" then none
  else
    let normalized : String := ⟨textNorm tech_type⟩
    if normalized = "" ∨ normalized ∈ (["nan", "none", "null", ""] : List String) then none
    else if summary_keywords.any (fun k => pyIn k normalized) then none
    else
      match typeMapLookup normalized type_mapping with
      | some standard => some standard
      | none => some (pyCapitalize (pyStrip tech_type))

/-! ## Text normalizer: status classifier (`normalize_status`) -/

/-- All ways the optional/alternative pieces of a regex group can consume
input: returns every possible rest (regex alternation with backtracking). -/
def altRests (pats : List (List Char)) (l : List Char) : List (List Char) :=
  pats.filterMap (fun p => if startsWith p l then some (l.drop p.length) else none)

/-- Word-boundary `\b` before position: start of string or previous char is
a non-word char.  `prev = none` means start of string. -/
def boundaryBefore (prev : Option Char) : Bool :=
  match prev with
  | none => true
  | some c => !isWordChar c

/-- `\b` after the match: end of string or next char is non-word. -/
def boundaryAfter : List Char → Bool
  | [] => true
  | c :: _ => !isWordChar c

/-- Matcher for `re.search(r"\bв\s*рабоч(ем|ее)?\s*состояни(и|е)\b", s)`
anchored at the current position (after the `\bв`). -/
def vRabochTail (l : List Char) : Bool :=
  let l := l.dropWhile isPySpace
  if startsWith "рабоч".toList l then
    let l := l.drop 5
    (altRests ["ем".toList, "ее".toList, []] l).any (fun l2 =>
      let l3 := l2.dropWhile isPySpace
      if startsWith "состояни".toList l3 then
        (altRests ["и".toList, "е".toList] (l3.drop 8)).any boundaryAfter
      else false)
  else false

/-- `re.search` scan for the "в рабочем состоянии" pattern. -/
def vRabochSearch (prev : Option Char) : List Char → Bool
  | [] => false
  | c :: rest =>
    (boundaryBefore prev && c = 'в' && vRabochTail rest) || vRabochSearch (some c) rest

/-- Matcher for `re.search(r"\bв\s*ремонтн", s)`. -/
def vRemontnSearch (prev : Option Char) : List Char → Bool
  | [] => false
  | c :: rest =>
    (boundaryBefore prev && c = 'в' &&
      startsWith "ремонтн".toList (rest.dropWhile isPySpace)) ||
    vRemontnSearch (some c) rest

/-- Substring check of a token list against the normalized text. -/
def anyIn (toks : List String) (s : String) : Bool := toks.any (fun t => pyIn t s)

/-- Icon/label shortcut token lists of `normalize_status` (the emoji are
stripped to spaces by the `[^\w\s]` substitution before these checks run;
the plain-word members `green` and `ok` remain live). -/
def greenIcons : List String := ["✅", "🟢", "green", "ok"]
def redIcons : List String := ["⛔", "🛑", "🔴", "❌"]
def yellowIcons : List String := ["🛠", "🟡", "⚠"]

/-- Operational lexicon of `normalize_status` (its condition is one big
disjunction; the regex disjunct sits between `в эксплуатации`/`working` and
`исправен`, which is order-irrelevant inside a single `if`). -/
def statusOperationalCond (s : String) : Bool :=
  anyIn ["яроқли", "ярокли", "ишлайди", "ишламоқда", "ишлаб турибди",
         "ишга яроқли", "ишга ярокли", "эксплуатацияда", "фойдаланишда",
         "в эксплуатации", "operational", "in service", "working"] s ||
  vRabochSearch none s.toList ||
  anyIn ["исправен", "исправна", "исправно", "исправный",
         "работает", "ready", "good", "active"] s

/-- Non-operational lexicon, including the negation override
`("исправен" in s and "не" in s)` and `"неисправ" in s`. -/
def statusNonOperationalCond (s : String) : Bool :=
  anyIn ["яроқсиз", "яроксиз", "ишламаяпти", "ишламайди", "ишламаган",
         "ишдан чиққан", "ишдан чиккан", "тизимдан ташқари", "не работает",
         "в не исправн", "вне исправн", "broken", "inactive", "out of order",
         "қисман ишламайди", "частично не работает"] s ||
  (pyIn "исправен" s && pyIn "не" s) ||
  pyIn "неисправ" s

/-- Repair/maintenance lexicon. -/
def statusRepairCond (s : String) : Bool :=
  anyIn ["таъмирталаб", "тамирталаб", "таъмирда", "ремонтда", "ремонт",
         "ремонтируется", "на ремонте"] s ||
  vRemontnSearch none s.toList ||
  anyIn ["обслуживан", "техобслуж", "maintenance", "under repair", "repair"] s

/-- `normalize_status` of `bot.py`: always one of the four canonical labels.
The empty/`NaN` guard is `status.strip() == ""` on the raw value. -/
def normalize_status (status : String) : String :=
  if pyStrip status = "" then "Холати номаълум"
  else
    let s : String := ⟨textNorm status⟩
    if anyIn greenIcons s then "Ярокли"
    else if anyIn redIcons s then "Яроксиз"
    else if anyIn yellowIcons s then "Таъмирталаб"
    else if statusOperationalCond s then "Ярокли"
    else if statusNonOperationalCond s then "Яроксиз"
    else if statusRepairCond s then "Таъмирталаб"
    else "Холати номаълум"

/-! ## Text normalizer: tracker-presence parser (`normalize_tracker_flag`)

Python `float(str)` is modelled by `pyFloat?`: optional whitespace and sign,
`inf`/`infinity`/`nan` (case-insensitive) or a decimal literal with optional
fraction and exponent, evaluated exactly as a rational.  (Digit-group
underscores, non-ASCII digits and float overflow/underflow are outside the
model; no input considered here uses them.) -/

/-- A parsed float value, kept in exact symbolic form: `finite neg m ex`
denotes `(-1)^neg · m · 10^ex`. -/
inductive PyFloat : Type
  | finite (neg : Bool) (mantissa : Nat) (ex : Int)
  | inf (neg : Bool)
  | nan
deriving DecidableEq

/-- `num > 0` on the parsed value (`10^ex` is always positive, so the sign
is decided by the sign flag and a nonzero mantissa). -/
def PyFloat.pos : PyFloat → Bool
  | .finite neg m _ => !neg && m ≠ 0
  | .inf neg => !neg
  | .nan => false

/-- `num == 0` on the parsed value. -/
def PyFloat.isZero : PyFloat → Bool
  | .finite _ m _ => m = 0
  | .inf _ => false
  | .nan => false

/-- Split the longest ASCII-digit run off the front of the list. -/
def splitDigits : List Char → List Char × List Char
  | [] => ([], [])
  | c :: rest =>
    if c.isDigit then
      let (a, b) := splitDigits rest
      (c :: a, b)
    else ([], c :: rest)

/-- Numeric value of an ASCII digit run. -/
def digitsToNat : List Char → Nat
  | [] => 0
  | c :: rest => digitsToNat rest + (c.toNat - 0x30) * 10 ^ rest.length

/-- The exact value `±(ip.fp) · 10^ex`, as sign/mantissa/exponent. -/
def mkFloatVal (neg : Bool) (ip fp : List Char) (ex : Int) : PyFloat :=
  .finite neg (digitsToNat (ip ++ fp)) (ex - (fp.length : Int))

/-- Exponent digits: non-empty, all digits, and they must end the string. -/
def parseExpDigits (neg : Bool) (ip fp : List Char) (eneg : Bool)
    (ds : List Char) : Option PyFloat :=
  if ds ≠ [] ∧ ds.all (·.isDigit) then
    some (mkFloatVal neg ip fp ((if eneg then -1 else 1) * (digitsToNat ds : Int)))
  else none

/-- Optional exponent part after the mantissa. -/
def parseExp (neg : Bool) (ip fp : List Char) : List Char → Option PyFloat
  | [] => some (mkFloatVal neg ip fp 0)
  | c :: r =>
    if c = 'e' ∨ c = 'E' then
      match r with
      | '+' :: r2 => parseExpDigits neg ip fp false r2
      | '-' :: r2 => parseExpDigits neg ip fp true r2
      | _ => parseExpDigits neg ip fp false r
    else none

/-- Mantissa: digits, optional dot and fraction digits; at least one digit.
(`(splitDigits l).1` is the integer part, the rest follows.) -/
def parseNumber (neg : Bool) (l : List Char) : Option PyFloat :=
  match (splitDigits l).2 with
  | '.' :: r =>
    if (splitDigits l).1 = [] ∧ (splitDigits r).1 = [] then none
    else parseExp neg (splitDigits l).1 (splitDigits r).1 (splitDigits r).2
  | r1 => if (splitDigits l).1 = [] then none else parseExp neg (splitDigits l).1 [] r1

/-- Case-insensitive comparison against an ASCII keyword. -/
def lowerEq (l : List Char) (pat : String) : Bool :=
  l.map pyLowerChar = pat.toList

/-- Signed body: `inf`, `infinity`, `nan` or a number. -/
def parseBody (neg : Bool) (l : List Char) : Option PyFloat :=
  if lowerEq l "inf" ∨ lowerEq l "infinity" then some (.inf neg)
  else if lowerEq l "nan" then some .nan
  else parseNumber neg l

/-- `float(s)` on the character list (whitespace already stripped). -/
def parseSigned : List Char → Option PyFloat
  | '+' :: r => parseBody false r
  | '-' :: r => parseBody true r
  | l => parseBody false l

/-- `float(s)`: `none` models `ValueError`. -/
def pyFloat? (s : String) : Option PyFloat := parseSigned (stripL s.toList)

/-- The string checks of `normalize_tracker_flag` after the numeric attempt
falls through (`s` is the stripped raw value, `s_low` its lower-casing). -/
def trackerStringChecks (s : String) : Bool :=
  let s_low : String := pyLower s
  if pyIn "мавжуд эмас" s_low || pyIn "mavjud emas" s_low then false
  else if pyIn "мавжуд" s_low || pyIn "mavjud" s_low then true
  else if s_low ∈ (["no", "нет", "yo\x27q", "йўқ", "yuk", "йук", "0", "false", "n"] : List String) then
    false
  else if s_low ∈ (["yes", "да", "ha", "bor", "есть", "1", "true", "y", "д"] : List String) then
    true
  else if pyIn "gps" s_low || pyIn "трекер" s_low then
    if !pyIn "нет" s_low && !pyIn "yo\x27q" s_low && !pyIn "йўқ" s_low then true
    else false
  else false

/-- `normalize_tracker_flag` of `bot.py`.  `none` models Python `None`;
other non-string cell values reach it as their string rendering. -/
def normalize_tracker_flag (value : Option String) : Bool :=
  match value with
  | none => false
  | some v =>
    let s : String := pyStrip v
    if s = "" then false
    else
      match pyFloat? ⟨s.toList.map (fun c => if c = ',' then '.' else c)⟩ with
      | some num =>
        if num.pos then true
        else if num.isZero then false
        else trackerStringChecks s
      | none => trackerStringChecks s

/-! ## Data model: canonical records, tables, datasets -/

/-- A canonical record: the columns `keep` of `load_single_region_sync`. -/
structure Rec where
  region_name : String
  city_district : String
  type_normalized : String
  status_normalized : String
  qty : Int
  has_tracker : Bool
deriving DecidableEq, Repr

/-- The produced Dataset (one pipeline run's records in row order). -/
abbrev Dataset := List Rec

/-- A raw worksheet as `pd.DataFrame(ws.get_all_records())`: a header row and
data rows of string cells (gspread renders every cell as text; a missing
cell is the empty string). -/
structure Table where
  headers : List String
  rows : List (List String)
deriving DecidableEq, Repr

/-- `df[col]` for one row: the cell under header `h` (headers are unique in
a pandas frame; the first occurrence is used). -/
def cell (hs : List String) (row : List String) (h : String) : String :=
  match hs.findIdx? (· = h) with
  | some i => row.getD i ""
  | none => ""

/-! ## Row pipeline (`load_single_region_sync`, lines 402–471) -/

/-- `pd.to_numeric(x, errors="coerce").fillna(0).astype(int)` on one cell:
parse as a float, truncate toward zero; unparsable (`NaN`) becomes 0.
(`astype(int)` of a non-finite value raises in pandas; such cells do not
occur in the modelled tables.)  Truncation toward zero of
`±m·10^ex` is `±(m·10^ex)` for `ex ≥ 0` and `±(m / 10^(-ex))` (`Nat`
division) otherwise. -/
def to_numeric_int (s : String) : Int :=
  match pyFloat? s with
  | some (.finite neg m ex) =>
    let n : Nat := if 0 ≤ ex then m * 10 ^ ex.toNat else m / 10 ^ (-ex).toNat
    if neg then -(n : Int) else (n : Int)
  | _ => 0

/-- The `qty` column of one row: parse the quantity cell and coerce
non-positive values to 1 (`df.loc[df["qty"] <= 0, "qty"] = 1`); a missing
quantity column gives 1 for every row. -/
def row_qty (hs : List String) (qty_col : Option String) (row : List String) : Int :=
  match qty_col with
  | some qc =>
    let q := to_numeric_int (cell hs row qc)
    if q ≤ 0 then 1 else q
  | none => 1

/-- One raw row to at most one canonical record (per-row part of the
pipeline; the frame-level operations of the source are all row-wise).
`none` models the row being dropped by the `type_normalized` filter. -/
def process_row (region : String) (hs : List String)
    (status_col region_col qty_col tracker_col : Option String) (type_col : String)
    (row : List String) : Option Rec :=
  match normalize_tech_type (cell hs row type_col) with
  | none => none
  | some ty =>
    if ty = "" then none
    else
      some
        { region_name := region
          city_district :=
            match region_col with
            | some rc =>
              let c := cell hs row rc
              if c = "Не указан" ∨ pyStrip c = "" then region else pyStrip c
            | none => region
          type_normalized := ty
          status_normalized :=
            match status_col with
            | some sc => normalize_status (cell hs row sc)
            | none => "Холати номаълум"
          qty := row_qty hs qty_col row
          has_tracker :=
            match tracker_col with
            | some kc => normalize_tracker_flag (some (cell hs row kc))
            | none => false }

/-- The successful-fetch body of `load_single_region_sync`: strip headers,
resolve the five roles, bail out to an empty frame when the table is empty
or the type column is unresolved, then process every row. -/
def process_region_table (region : String) (t : Table) : Dataset :=
  if t.rows = [] then []
  else
    let hs := t.headers.map pyStrip
    match find_column hs TYPE_ALIASES with
    | none => []
    | some type_col =>
      t.rows.filterMap
        (process_row region hs (find_column hs STATUS_ALIASES)
          (find_column hs REGION_ALIASES) (find_column hs QTY_ALIASES)
          (find_column hs TRACKER_ALIASES) type_col)

/-! ## Fetch scheduler and cache (`load_*`, `get_df_async`) -/

/-- The observable outcome of the upstream fetch for one source, including
the single bounded retry after a throttling (`429`) error.  (The retry
branch of the source repeats the same row pipeline.) -/
inductive FetchOutcome : Type
  | ok (t : Table)
  | throttleThenOk (t : Table)
  | throttleThenFail
  | fail
deriving DecidableEq

/-- `load_single_region_sync`: a missing sheet id and every caught failure
yield an empty per-region frame; a successful (re)fetch runs the pipeline. -/
def load_single_region_sync (region : String) (sheet_id : Option String)
    (out : FetchOutcome) : Dataset :=
  match sheet_id with
  | none => []
  | some _ =>
    match out with
    | .ok t => process_region_table region t
    | .throttleThenOk t => process_region_table region t
    | .throttleThenFail => []
    | .fail => []

/-- `load_all_regions_async`: configured sources with a sheet id, each
loaded (failures isolated inside `load_single_region_sync`), empty frames
skipped, the rest concatenated in task order; nothing at all gives an empty
Dataset.  `outs` assigns each region its fetch outcome. -/
def load_all_regions_async (sheets : List (String × Option String))
    (outs : String → FetchOutcome) : Dataset :=
  let regions := sheets.filter (fun p => p.2.isSome)
  if regions = [] then []
  else
    let parts := (regions.map (fun p => load_single_region_sync p.1 p.2 (outs p.1))).filter
      (fun d => !d.isEmpty)
    if parts = [] then [] else parts.flatten

/-- The in-memory cache: source key to (Dataset, expiry time).  Time is in
minutes; `CACHE_TTL = timedelta(minutes=30)`. -/
abbrev Cache := List (String × (Dataset × Nat))

def CACHE_TTL : Nat := 30

/-- The fetch-and-store branch of `get_df_async` (the `try` body from the
scheduler call on): on success store `(df, now + TTL)` and return the new
Dataset; on an exception return the stale entry if present, else an empty
Dataset.  The third component records whether the upstream fetch ran. -/
def get_df_fetch (cache : Cache) (key : String) (now : Nat)
    (fetch : Except Unit Dataset) : Dataset × Cache × Bool :=
  match fetch with
  | .ok df => (df, upsertA key (df, now + CACHE_TTL) cache, true)
  | .error _ =>
    match alookup key cache with
    | some e => (e.1, cache, true)
    | none => ([], cache, true)

/-- `get_df_async`: serve an unexpired entry unless `force_refresh`,
otherwise fetch.  `fetch` stands for the scheduler call for this key; the
returned flag is `true` exactly when that call was made. -/
def get_df_async (cache : Cache) (key : String) (force_refresh : Bool) (now : Nat)
    (fetch : Except Unit Dataset) : Dataset × Cache × Bool :=
  match alookup key cache with
  | some e =>
    if !force_refresh ∧ now < e.2 then (e.1, cache, false)
    else get_df_fetch cache key now fetch
  | none => get_df_fetch cache key now fetch

/-! ## Aggregation engine -/

/-- Python's `<` on strings (lexicographic by code point), written as a
structural Boolean function on the character lists. -/
def listLt : List Char → List Char → Bool
  | _, [] => false
  | [], _ :: _ => true
  | a :: as, b :: bs => if a = b then listLt as bs else decide (a.toNat < b.toNat)

def strLt (a b : String) : Bool := listLt a.toList b.toList

/-- Sorted-insert of a group key, skipping duplicates: builds the ascending
key order that `groupby(..., sort=True)` produces. -/
def insKey (k : String) : List String → List String
  | [] => [k]
  | x :: xs =>
    if k = x then x :: xs else if strLt k x then k :: x :: xs else x :: insKey k xs

/-- The ascending, duplicate-free list of group keys of `rows` under `key`. -/
def keysSorted (key : Rec → String) : List Rec → List String
  | [] => []
  | r :: rest => insKey (key r) (keysSorted key rest)

/-- Summed quantity of the rows with group key `k`. -/
def sumFor (key : Rec → String) (k : String) (rows : List Rec) : Int :=
  ((rows.filter (fun r => key r = k)).map Rec.qty).sum

/-- `df.groupby(key, as_index=False).agg(qty=("qty", "sum"))`: one output
row per key, keys ascending, each with its summed quantity. -/
def groupSum (key : Rec → String) (rows : List Rec) : List (String × Int) :=
  (keysSorted key rows).map (fun k => (k, sumFor key k rows))

/-- Stable insertion by quantity (ascending); an incoming row goes before
the first row of strictly greater or equal quantity it meets, keeping
earlier-inserted equal rows after it — i.e. the stable ascending order. -/
def insQty (p : String × Int) : List (String × Int) → List (String × Int)
  | [] => [p]
  | q :: rest => if p.2 ≤ q.2 then p :: q :: rest else q :: insQty p rest

/-- Stable ascending sort by quantity. -/
def sortQtyAsc : List (String × Int) → List (String × Int)
  | [] => []
  | p :: rest => insQty p (sortQtyAsc rest)

/-- `sort_values("qty", ascending=False)`: pandas computes the (stable for
the small frames at issue) ascending order and reverses it, so tied rows
come out in reversed input order. -/
def sortQtyDesc (l : List (String × Int)) : List (String × Int) :=
  (sortQtyAsc l).reverse

/-- `count_type_per_region`: rows of the given (normalized) technical type,
grouped by region and summed, sorted by quantity descending. -/
def count_type_per_region (df_all : Dataset) (tech_type : String) : List (String × Int) :=
  if df_all = [] then []
  else
    match normalize_tech_type tech_type with
    | none => []
    | some nt =>
      let sub := df_all.filter (fun r => r.type_normalized = nt)
      if sub = [] then [] else sortQtyDesc (groupSum Rec.region_name sub)

/-- `all_types_summary`: group by normalized type and sum, sorted by
quantity descending.  (`type_normalized` is never `NaN` in a produced
Dataset, so the `notna` filter keeps every row.) -/
def all_types_summary (df : Dataset) : List (String × Int) :=
  if df = [] then [] else sortQtyDesc (groupSum Rec.type_normalized df)

/-- `get_status_distribution_any`: group by normalized status and sum,
sorted by quantity descending. -/
def get_status_distribution_any (df_subset : Dataset) : List (String × Int) :=
  if df_subset = [] then [] else sortQtyDesc (groupSum Rec.status_normalized df_subset)

/-! ## Concrete instances used by witnesses and counterexamples -/

/-- A two-column worksheet: a type column and a quantity column whose only
cell is `"0"` (a non-positive quantity). -/
def tblW : Table := ⟨["Техника тури", "Сони"], [["Трактор", "0"]]⟩

/-- The canonical record the pipeline produces from `tblW` for region
`"R"`. -/
def recW : Rec := ⟨"R", "Трактор", "Трактор", "Холати номаълум", 1, false⟩

/-- Two records of the same type and quantity in regions `"a"` and `"b"`:
a quantity tie between two group keys. -/
def dfTie : Dataset :=
  [⟨"a", "a", "Трактор", "Ярокли", 1, false⟩, ⟨"b", "b", "Трактор", "Ярокли", 1, false⟩]

/-- Descending-by-quantity order of a result table. -/
def DescQty (l : List (String × Int)) : Prop := l.Pairwise (fun a b => b.2 ≤ a.2)

/-- Ascending-by-quantity order (the invariant of the stable pre-sort). -/
def AscQty (l : List (String × Int)) : Prop := l.Pairwise (fun a b => a.2 ≤ b.2)

/-- The four canonical status labels. -/
def canonicalStatuses : List String :=
  ["Ярокли", "Яроксиз", "Таъмирталаб", "Холати номаълум"]

/-- Union of the three token sets of the `find_column` heuristic. -/
def allHeurTokens : List String := statusTokens ++ regionTokens ++ typeTokens

/-- A quantity-2 record, split into 1 + 1 by the C8 witness. -/
def rSplit : Rec := ⟨"a", "a", "Трактор", "Ярокли", 2, false⟩

/-- Characters that can appear in a string accepted by `pyFloat?`: digits,
sign, dot, exponent markers, and the letters of `inf`/`infinity`/`nan`
(case-insensitively). -/
def isFloatChar (c : Char) : Bool :=
  c.isDigit || c = '+' || c = '-' || c = '.' || c = 'e' || c = 'E' ||
  pyLowerChar c ∈ (['i', 'n', 'f', 't', 'y', 'a'] : List Char)

/-- The negative-presence phrase of the tracker parser, as characters. -/
def trackerPhrase : List Char := "мавжуд эмас".toList

/-! ## Lemmas about the quantity sort -/

theorem mem_insQty {p q : String × Int} {l : List (String × Int)} :
    q ∈ insQty p l ↔ q = p ∨ q ∈ l := by
  induction l with
  | nil => simp [insQty]
  | cons x xs ih =>
    simp only [insQty]
    split
    · simp [or_comm, or_assoc, or_left_comm]
    · simp [ih]; tauto

theorem pairwise_insQty {p : String × Int} {l : List (String × Int)}
    (h : l.Pairwise (fun a b => a.2 ≤ b.2)) :
    (insQty p l).Pairwise (fun a b => a.2 ≤ b.2) := by
  induction l with
  | nil => simp [insQty]
  | cons x xs ih =>
    simp only [insQty]
    split
    · rename_i hle
      refine List.Pairwise.cons ?_ h
      intro y hy
      rcases List.mem_cons.mp hy with rfl | hy
      · exact hle
      · exact le_trans hle ((List.pairwise_cons.mp h).1 y hy)
    · rename_i hgt
      push_neg at hgt
      refine List.Pairwise.cons ?_ (ih (List.pairwise_cons.mp h).2)
      intro y hy
      rcases mem_insQty.mp hy with rfl | hy
      · exact le_of_lt hgt
      · exact (List.pairwise_cons.mp h).1 y hy

theorem ascQty_sortQtyAsc (l : List (String × Int)) : AscQty (sortQtyAsc l) := by
  induction l with
  | nil => simp [sortQtyAsc, AscQty]
  | cons p rest ih => exact pairwise_insQty ih

theorem descQty_sortQtyDesc (l : List (String × Int)) : DescQty (sortQtyDesc l) := by
  unfold sortQtyDesc DescQty
  rw [List.pairwise_reverse]
  exact ascQty_sortQtyAsc l

/-- C5 counterexample: on `dfTie` both regions have summed quantity 1, yet
`count_type_per_region` puts `"b"` before `"a"` — the claimed ascending
case-insensitive tie-break would give `"a"` first.  (The `groupby` step
yields keys ascending; the descending quantity sort reverses tied runs, so
no name tie-break is applied.) -/
theorem ranked_view_tie_counterexample :
    count_type_per_region dfTie "Трактор" = [("b", 1), ("a", 1)] ∧
    count_type_per_region dfTie "Трактор" ≠ [("a", 1), ("b", 1)] := by
  constructor
  · decide
  · decide

/-- C5 (amended): every ranked group-and-sum view returns its rows sorted
descending by summed quantity; no tie-break on the key name is applied —
on `dfTie` the tied keys come out in descending, not ascending, order. -/
theorem ranked_views_sorted_desc :
    (∀ df t, DescQty (count_type_per_region df t)) ∧
    (∀ df, DescQty (all_types_summary df)) ∧
    (∀ df, DescQty (get_status_distribution_any df)) ∧
    count_type_per_region dfTie "Трактор" = [("b", 1), ("a", 1)] := by
  refine ⟨fun df t => ?_, fun df => ?_, fun df => ?_, by decide⟩
  · unfold count_type_per_region
    split
    · exact List.Pairwise.nil
    · split
      · exact List.Pairwise.nil
      · dsimp only
        split
        · exact List.Pairwise.nil
        · exact descQty_sortQtyDesc _
  · unfold all_types_summary
    split
    · exact List.Pairwise.nil
    · exact descQty_sortQtyDesc _
  · unfold get_status_distribution_any
    split
    · exact List.Pairwise.nil
    · exact descQty_sortQtyDesc _

/-- C1 (code bug): `"не исправен"` contains both the "serviceable" word
`исправен` and the negation token `не` after normalization, yet
`normalize_status` returns Operational (`"Ярокли"`), because the operational
lexicon (which contains `исправен` as a plain substring) is tested before
the negation override — the override is unreachable for exactly the inputs
it is written for. -/
theorem normalize_status_negation_dead :
    (pyIn "исправен" ⟨textNorm "не исправен"⟩ && pyIn "не" ⟨textNorm "не исправен"⟩) = true ∧
    normalize_status "не исправен" = "Ярокли" ∧
    normalize_status "неисправен" = "Ярокли" := by
  refine ⟨by decide, by decide, by decide⟩

/-- C6: the status classifier is idempotent on the four canonical labels,
and every input is classified to one of the four labels (never an error). -/
theorem normalize_status_idempotent_total :
    normalize_status "Ярокли" = "Ярокли" ∧
    normalize_status "Яроксиз" = "Яроксиз" ∧
    normalize_status "Таъмирталаб" = "Таъмирталаб" ∧
    normalize_status "Холати номаълум" = "Холати номаълум" ∧
    ∀ s, normalize_status s ∈ canonicalStatuses := by
  refine ⟨by decide, by decide, by decide, by decide, fun s => ?_⟩
  unfold normalize_status
  split
  · simp [canonicalStatuses]
  · dsimp only
    split
    · simp [canonicalStatuses]
    · split
      · simp [canonicalStatuses]
      · split
        · simp [canonicalStatuses]
        · split
          · simp [canonicalStatuses]
          · split
            · simp [canonicalStatuses]
            · split
              · simp [canonicalStatuses]
              · simp [canonicalStatuses]

/-! ## Lemmas about the schema resolver -/

theorem mem_of_alookup {α : Type} {k : String} {v : α} {m : List (String × α)}
    (h : alookup k m = some v) : (k, v) ∈ m := by
  induction m with
  | nil => simp [alookup] at h
  | cons p rest ih =>
    rw [alookup] at h
    split at h
    · rename_i hk
      cases h
      simp [hk.symm]
    · exact List.mem_cons_of_mem _ (ih h)

theorem mem_upsertA {α : Type} {k : String} {v : α} {p : String × α}
    {m : List (String × α)} (h : p ∈ upsertA k v m) : p = (k, v) ∨ p ∈ m := by
  induction m with
  | nil => simpa [upsertA] using h
  | cons q rest ih =>
    rw [upsertA] at h
    split at h
    · rcases List.mem_cons.mp h with rfl | hm
      · exact Or.inl rfl
      · exact Or.inr (List.mem_cons_of_mem _ hm)
    · rcases List.mem_cons.mp h with rfl | hm
      · exact Or.inr (List.mem_cons_self _ _)
      · rcases ih hm with h' | h'
        · exact Or.inl h'
        · exact Or.inr (List.mem_cons_of_mem _ h')

theorem alookup_upsertA {α : Type} (k k' : String) (v : α) (m : List (String × α)) :
    alookup k (upsertA k' v m) = if k' = k then some v else alookup k m := by
  induction m with
  | nil => simp [upsertA, alookup]
  | cons q rest ih =>
    rw [upsertA]
    split
    · rename_i hq
      subst hq
      rw [alookup, alookup]
      by_cases hk : q.1 = k <;> simp [hk]
    · rename_i hne
      rw [alookup, alookup, ih]
      by_cases hq : q.1 = k
      · have hk : k' ≠ k := fun h => hne (hq.trans h.symm)
        simp [hq, hk]
      · simp [hq]

/-- Every entry of the normalized-header map is an original column paired
with its normalized form. -/
theorem norm_map_aux_sound {p : String × String} :
    ∀ (cols : List String) (m0 : List (String × String)),
      p ∈ norm_map_aux m0 cols →
      p ∈ m0 ∨ (p.2 ∈ cols ∧ p.1 = normalize_header p.2)
  | [], m0, h => Or.inl h
  | c :: rest, m0, h => by
    rw [norm_map_aux] at h
    rcases norm_map_aux_sound rest _ h with h' | h'
    · rcases mem_upsertA h' with rfl | h''
      · exact Or.inr ⟨List.mem_cons_self _ _, rfl⟩
      · exact Or.inl h''
    · exact Or.inr ⟨List.mem_cons_of_mem _ h'.1, h'.2⟩

theorem norm_map_sound {p : String × String} {cols : List String}
    (h : p ∈ norm_map cols) : p.2 ∈ cols ∧ p.1 = normalize_header p.2 := by
  rcases norm_map_aux_sound cols [] h with h' | h'
  · simp at h'
  · exact h'

/-- Keys survive dict updates, and every column's normalized form becomes a
key of the map. -/
theorem alookup_norm_map_aux_isSome {k : String} :
    ∀ (cols : List String) (m0 : List (String × String)),
      ((alookup k m0).isSome ∨ ∃ c ∈ cols, normalize_header c = k) →
      (alookup k (norm_map_aux m0 cols)).isSome
  | [], m0, h => by
    rcases h with h | ⟨c, hc, _⟩
    · exact h
    · simp at hc
  | c :: rest, m0, h => by
    rw [norm_map_aux]
    apply alookup_norm_map_aux_isSome rest
    rw [alookup_upsertA]
    rcases h with h | ⟨c', hc', hk⟩
    · left
      split
      · simp
      · exact h
    · rcases List.mem_cons.mp hc' with rfl | hc''
      · left
        simp [hk]
      · exact Or.inr ⟨c', hc'', hk⟩

theorem alookup_norm_map_isSome {k : String} {cols : List String}
    (h : ∃ c ∈ cols, normalize_header c = k) :
    (alookup k (norm_map cols)).isSome :=
  alookup_norm_map_aux_isSome cols [] (Or.inr h)

theorem findExact_isSome {m : List (String × String)} :
    ∀ {aliases : List String},
      (∃ a ∈ aliases, (alookup (normalize_header a) m).isSome) →
      (findExact m aliases).isSome
  | [], h => by simp at h
  | a :: rest, h => by
    rw [findExact]
    split
    · simp
    · rename_i hnone
      rcases h with ⟨a', ha', hs⟩
      rcases List.mem_cons.mp ha' with rfl | ha''
      · rw [hnone] at hs
        simp at hs
      · exact findExact_isSome ⟨a', ha'', hs⟩

theorem findExact_sound {m : List (String × String)} {v : String} :
    ∀ {aliases : List String}, findExact m aliases = some v →
      ∃ a ∈ aliases, alookup (normalize_header a) m = some v
  | [], h => by simp [findExact] at h
  | a :: rest, h => by
    rw [findExact] at h
    split at h
    · rename_i horig
      cases h
      exact ⟨a, List.mem_cons_self _ _, horig⟩
    · rcases findExact_sound h with ⟨a', ha', hv⟩
      exact ⟨a', List.mem_cons_of_mem _ ha', hv⟩

/-- C4: whenever some column's normalized header equals some alias's
normalized form, `find_column` resolves to a column with exactly that
property — exact matches are never shadowed by substring matches. -/
theorem find_column_exact_wins (cols aliases : List String)
    (h : ∃ c ∈ cols, ∃ a ∈ aliases, normalize_header c = normalize_header a) :
    ∃ v ∈ cols, find_column cols aliases = some v ∧
      ∃ a ∈ aliases, normalize_header v = normalize_header a := by
  obtain ⟨c, hc, a, ha, hca⟩ := h
  have hsome : (findExact (norm_map cols) aliases).isSome :=
    findExact_isSome ⟨a, ha, alookup_norm_map_isSome ⟨c, hc, hca⟩⟩
  obtain ⟨v, hv⟩ := Option.isSome_iff_exists.mp hsome
  obtain ⟨a', ha', hl⟩ := findExact_sound hv
  have hmem := norm_map_sound (mem_of_alookup hl)
  refine ⟨v, hmem.1, ?_, a', ha', hmem.2.symm⟩
  simp only [find_column]
  rw [hv]

/-- C4 witness: with columns `["Статус борт", "Холати"]` the status role
resolves by exact match even though `"Статус борт"` contains the alias
`"Статус"` as a substring. -/
theorem find_column_exact_wins_witness :
    ∃ v ∈ ["Статус борт", "Холати"],
      find_column ["Статус борт", "Холати"] STATUS_ALIASES = some v ∧
        ∃ a ∈ STATUS_ALIASES, normalize_header v = normalize_header a :=
  find_column_exact_wins _ _ ⟨"Холати", by decide, "Холати", by decide, by decide⟩

theorem findTokSet_sound {toks : List String} {o : String} :
    ∀ {m : List (String × String)}, findTokSet toks m = some o →
      ∃ p ∈ m, p.2 = o ∧ ∃ t ∈ toks, pyIn t p.1 = true
  | [], h => by simp [findTokSet] at h
  | (nc, orig) :: rest, h => by
    rw [findTokSet] at h
    split at h
    · rename_i hany
      cases h
      obtain ⟨t, ht, hin⟩ := List.any_eq_true.mp hany
      exact ⟨(nc, o), List.mem_cons_self _ _, rfl, t, ht, hin⟩
    · obtain ⟨p, hp, h2, t, ht, hin⟩ := findTokSet_sound h
      exact ⟨p, List.mem_cons_of_mem _ hp, h2, t, ht, hin⟩

theorem findTok_sound {m : List (String × String)} {o : String} :
    ∀ {sets : List (List String)}, findTok m sets = some o →
      ∃ toks ∈ sets, ∃ p ∈ m, p.2 = o ∧ ∃ t ∈ toks, pyIn t p.1 = true
  | [], h => by simp [findTok] at h
  | toks :: rest, h => by
    rw [findTok] at h
    split at h
    · rename_i horig
      cases h
      obtain ⟨p, hp, h2, t, ht, hin⟩ := findTokSet_sound horig
      exact ⟨toks, List.mem_cons_self _ _, p, hp, h2, t, ht, hin⟩
    · obtain ⟨toks', hts, rest'⟩ := findTok_sound h
      exact ⟨toks', List.mem_cons_of_mem _ hts, rest'⟩

/-- C9 counterexample: resolving the *region* role over the single header
`"Холати"` falls through to the token heuristic and returns `"Холати"`,
whose normalized form contains a status-suggestive token (`"холат"`) and no
region-suggestive token — the heuristic is not role-specific. -/
theorem find_column_token_cross_role :
    find_column ["Холати"] REGION_ALIASES = some "Холати" ∧
    (regionTokens.all (fun t => !pyIn t (normalize_header "Холати"))) = true ∧
    pyIn "холат" (normalize_header "Холати") = true := by
  refine ⟨by decide, by decide, by decide⟩

/-- C9 (amended): when neither exact nor substring matching resolves the
role, `find_column` returns a header only if its normalized form contains a
token from one of the three fixed token sets (status, region/district,
technical type), which are tested in that fixed order for *every* role —
so a role may be resolved to a header whose tokens suggest a different
role. -/
theorem find_column_token_step_sound (cols aliases : List String) (h : String)
    (h1 : findExact (norm_map cols) aliases = none)
    (h2 : findSubstr (norm_map cols) aliases = none)
    (hr : find_column cols aliases = some h) :
    h ∈ cols ∧ ∃ t ∈ allHeurTokens, pyIn t (normalize_header h) = true := by
  have hr' : findTok (norm_map cols) token_sets = some h := by
    simp only [find_column] at hr
    rw [h1, h2] at hr
    exact hr
  obtain ⟨toks, hts, p, hp, hpo, t, ht, hin⟩ := findTok_sound hr'
  have hm := norm_map_sound hp
  subst hpo
  refine ⟨hm.1, t, ?_, by rw [← hm.2]; exact hin⟩
  have : toks = statusTokens ∨ toks = regionTokens ∨ toks = typeTokens := by
    simpa [token_sets] using hts
  unfold allHeurTokens
  rcases this with rfl | rfl | rfl
  · exact List.mem_append_left _ (List.mem_append_left _ ht)
  · exact List.mem_append_left _ (List.mem_append_right _ ht)
  · exact List.mem_append_right _ ht

/-- C9 amended-theorem witness, at the counterexample's input. -/
theorem find_column_token_step_sound_witness :
    "Холати" ∈ ["Холати"] ∧
      ∃ t ∈ allHeurTokens, pyIn t (normalize_header "Холати") = true :=
  find_column_token_step_sound ["Холати"] REGION_ALIASES "Холати"
    (by decide) (by decide) (by decide)

/-! ## Lemmas about the row pipeline -/

theorem row_qty_ge_one (hs : List String) (qty_col : Option String) (row : List String) :
    1 ≤ row_qty hs qty_col row := by
  unfold row_qty
  cases qty_col with
  | none => exact le_refl 1
  | some qc =>
    dsimp only
    split
    · exact le_refl 1
    · omega

theorem process_row_qty {region : String} {hs : List String}
    {status_col region_col qty_col tracker_col : Option String} {type_col : String}
    {row : List String} {r : Rec}
    (h : process_row region hs status_col region_col qty_col tracker_col type_col row
      = some r) :
    r.qty = row_qty hs qty_col row := by
  unfold process_row at h
  split at h
  · exact absurd h (by simp)
  · split at h
    · exact absurd h (by simp)
    · cases h
      rfl

theorem mem_process_region_table {region : String} {t : Table} {r : Rec}
    (h : r ∈ process_region_table region t) :
    ∃ row ∈ t.rows,
      process_row region (t.headers.map pyStrip)
        (find_column (t.headers.map pyStrip) STATUS_ALIASES)
        (find_column (t.headers.map pyStrip) REGION_ALIASES)
        (find_column (t.headers.map pyStrip) QTY_ALIASES)
        (find_column (t.headers.map pyStrip) TRACKER_ALIASES)
        ((find_column (t.headers.map pyStrip) TYPE_ALIASES).getD "") row = some r := by
  unfold process_region_table at h
  split at h
  · simp at h
  · dsimp only at h
    split at h
    · simp at h
    · rename_i type_col htc
      obtain ⟨row, hrow, hpr⟩ := List.mem_filterMap.mp h
      exact ⟨row, hrow, by rw [htc]; exact hpr⟩

/-- C3: every record of a pipeline run has quantity at least 1 (malformed,
zero or negative quantity cells coerce to 1), and when the quantity role is
unresolved every record's quantity is exactly 1; the pipeline is a total
function, so the coercion can never surface as an error. -/
theorem pipeline_qty_ge_one :
    (∀ (region : String) (t : Table) (r : Rec),
        r ∈ process_region_table region t → 1 ≤ r.qty) ∧
    (∀ (region : String) (t : Table) (r : Rec),
        find_column (t.headers.map pyStrip) QTY_ALIASES = none →
        r ∈ process_region_table region t → r.qty = 1) := by
  constructor
  · intro region t r h
    obtain ⟨row, _, hpr⟩ := mem_process_region_table h
    rw [process_row_qty hpr]
    exact row_qty_ge_one _ _ _
  · intro region t r hq h
    obtain ⟨row, _, hpr⟩ := mem_process_region_table h
    rw [process_row_qty hpr, hq]
    rfl

/-- C3 witness: `tblW` has a quantity column whose only cell is `"0"`; the
produced record `recW` has quantity 1 (≥ 1). -/
theorem pipeline_qty_ge_one_witness :
    recW ∈ process_region_table "R" tblW ∧ 1 ≤ recW.qty :=
  ⟨by decide, pipeline_qty_ge_one.1 "R" tblW recW (by decide)⟩

/-! ## Lemmas about the cache -/

theorem get_df_async_hit {c : Cache} {k : String} {now : Nat} {f : Except Unit Dataset}
    {ds : Dataset} {exp : Nat} (hl : alookup k c = some (ds, exp)) (ht : now < exp) :
    get_df_async c k false now f = (ds, c, false) := by
  unfold get_df_async
  rw [hl]
  simp [ht]

theorem get_df_async_fetch_ok {c : Cache} {k : String} {now : Nat} {d : Dataset}
    (hmiss : alookup k c = none ∨ ∃ ds exp, alookup k c = some (ds, exp) ∧ exp ≤ now) :
    get_df_async c k false now (.ok d)
      = (d, upsertA k (d, now + CACHE_TTL) c, true) := by
  unfold get_df_async
  rcases hmiss with hl | ⟨ds, exp, hl, he⟩
  · rw [hl]
    rfl
  · rw [hl]
    have : ¬ now < exp := by omega
    simp only [this, Bool.not_false, true_and, and_false, if_false]
    rfl

theorem get_df_async_fetch_err {c : Cache} {k : String} {now : Nat}
    {ds : Dataset} {exp : Nat} (hl : alookup k c = some (ds, exp)) (he : exp ≤ now) :
    get_df_async c k false now (.error ()) = (ds, c, true) := by
  unfold get_df_async
  rw [hl]
  have : ¬ now < exp := by omega
  simp only [this, Bool.not_false, true_and, and_false, if_false]
  unfold get_df_fetch
  rw [hl]

theorem get_df_async_err_empty {c : Cache} {k : String} {now : Nat}
    (hl : alookup k c = none) :
    get_df_async c k false now (.error ()) = ([], c, true) := by
  unfold get_df_async
  rw [hl]
  unfold get_df_fetch
  rw [hl]

theorem alookup_upsertA_self {α : Type} (k : String) (v : α) (m : List (String × α)) :
    alookup k (upsertA k v m) = some v := by
  rw [alookup_upsertA]
  simp

/-- C2: the cache discipline of `get_df_async`.  (i) An unexpired entry is
served without fetching; (ii) otherwise a successful fetch is stored with
expiry `now + TTL` and returned; (iii) a failed fetch serves the previous
entry's snapshot when one exists, (iv) else an empty Dataset; (v) two
non-forced gets of the same key within the TTL window fetch exactly once:
the second call serves the first call's stored Dataset without fetching. -/
theorem get_df_cache_spec :
    (∀ (c : Cache) (k : String) (now : Nat) (f : Except Unit Dataset) ds exp,
        alookup k c = some (ds, exp) → now < exp →
        get_df_async c k false now f = (ds, c, false)) ∧
    (∀ (c : Cache) (k : String) (now : Nat) (d : Dataset),
        (alookup k c = none ∨ ∃ ds exp, alookup k c = some (ds, exp) ∧ exp ≤ now) →
        get_df_async c k false now (.ok d)
          = (d, upsertA k (d, now + CACHE_TTL) c, true)) ∧
    (∀ (c : Cache) (k : String) (now : Nat) ds exp,
        alookup k c = some (ds, exp) → exp ≤ now →
        get_df_async c k false now (.error ()) = (ds, c, true)) ∧
    (∀ (c : Cache) (k : String) (now : Nat),
        alookup k c = none →
        get_df_async c k false now (.error ()) = ([], c, true)) ∧
    (∀ (c : Cache) (k : String) (n₁ n₂ : Nat) (d : Dataset) (f : Except Unit Dataset),
        alookup k c = none → n₂ < n₁ + CACHE_TTL →
        (get_df_async c k false n₁ (.ok d)).2.2 = true ∧
        get_df_async (get_df_async c k false n₁ (.ok d)).2.1 k false n₂ f
          = (d, upsertA k (d, n₁ + CACHE_TTL) c, false)) := by
  refine ⟨fun c k now f ds exp hl ht => get_df_async_hit hl ht,
    fun c k now d hm => get_df_async_fetch_ok hm,
    fun c k now ds exp hl he => get_df_async_fetch_err hl he,
    fun c k now hl => get_df_async_err_empty hl,
    fun c k n₁ n₂ d f hl hn => ?_⟩
  have h1 := @get_df_async_fetch_ok c k n₁ d (Or.inl hl)
  rw [h1]
  refine ⟨rfl, ?_⟩
  exact get_df_async_hit (alookup_upsertA_self k (d, n₁ + CACHE_TTL) c) hn

/-- C2 witness: a cold cache, one successful fetch at time 0, a second get
at time 10 (< TTL = 30): the second call serves the cached value without
fetching, so the two calls fetch exactly once. -/
theorem get_df_cache_spec_witness :
    (get_df_async [] "R" false 0 (.ok [recW])).2.2 = true ∧
    get_df_async (get_df_async [] "R" false 0 (.ok [recW])).2.1 "R" false 10 (.error ())
      = ([recW], upsertA "R" ([recW], 0 + CACHE_TTL) [], false) :=
  get_df_cache_spec.2.2.2.2 [] "R" 0 10 [recW] (.error ()) (by decide) (by decide)

/-! ## Lemmas about the all-sources loader -/

theorem load_single_region_sync_fail {region : String} {sheet_id : Option String}
    {out : FetchOutcome} (h : out = .throttleThenFail ∨ out = .fail) :
    load_single_region_sync region sheet_id out = [] := by
  unfold load_single_region_sync
  rcases h with rfl | rfl <;> cases sheet_id <;> rfl

theorem filter_nonempty_nil {l : List Dataset} (h : ∀ x ∈ l, x = []) :
    l.filter (fun d => !d.isEmpty) = [] := by
  induction l with
  | nil => rfl
  | cons x xs ih =>
    rw [List.filter_cons]
    rw [h x (List.mem_cons_self _ _)]
    exact ih fun y hy => h y (List.mem_cons_of_mem _ hy)

theorem load_all_regions_async_all_fail {sheets : List (String × Option String)}
    {outs : String → FetchOutcome}
    (h : ∀ name, outs name = .throttleThenFail ∨ outs name = .fail) :
    load_all_regions_async sheets outs = [] := by
  unfold load_all_regions_async
  dsimp only
  split
  · rfl
  · rw [filter_nonempty_nil fun x hx => ?_]
    · rfl
    · obtain ⟨p, _, rfl⟩ := List.mem_map.mp hx
      exact load_single_region_sync_fail (h p.1)

/-- C10: when every configured source's fetch fails (including failed
retries after throttling), the combined "ALL" load returns an empty Dataset
without raising; a non-forced `get_df_async` whose cached "ALL" entry has
expired then stores that empty Dataset with a fresh `now + TTL` expiry in
place of the previous (possibly non-empty) entry, and a later non-forced
get within the new TTL window serves the empty Dataset without fetching. -/
theorem all_fail_empty_cached :
    (∀ (sheets : List (String × Option String)) (outs : String → FetchOutcome),
        (∀ name, outs name = .throttleThenFail ∨ outs name = .fail) →
        load_all_regions_async sheets outs = []) ∧
    (∀ (sheets : List (String × Option String)) (outs : String → FetchOutcome)
        (c : Cache) (prev : Dataset) (exp now n₂ : Nat) (f₂ : Except Unit Dataset),
        (∀ name, outs name = .throttleThenFail ∨ outs name = .fail) →
        alookup "ALL" c = some (prev, exp) → exp ≤ now → n₂ < now + CACHE_TTL →
        get_df_async c "ALL" false now (.ok (load_all_regions_async sheets outs))
          = ([], upsertA "ALL" ([], now + CACHE_TTL) c, true) ∧
        get_df_async (upsertA "ALL" ([], now + CACHE_TTL) c) "ALL" false n₂ f₂
          = ([], upsertA "ALL" ([], now + CACHE_TTL) c, false)) := by
  refine ⟨fun sheets outs h => load_all_regions_async_all_fail h,
    fun sheets outs c prev exp now n₂ f₂ h hl he hn => ?_⟩
  rw [load_all_regions_async_all_fail h]
  exact ⟨get_df_async_fetch_ok (Or.inr ⟨prev, exp, hl, he⟩),
    get_df_async_hit (alookup_upsertA_self _ _ _) hn⟩

/-- C10 witness: one configured source whose fetch fails, a stale non-empty
"ALL" entry, a refresh at time 40 and a second get at time 50. -/
theorem all_fail_empty_cached_witness :
    get_df_async [("ALL", ([recW], 35))] "ALL" false 40
        (.ok (load_all_regions_async [("R", some "sheet")] (fun _ => .fail)))
      = ([], upsertA "ALL" ([], 40 + CACHE_TTL) [("ALL", ([recW], 35))], true) ∧
    get_df_async (upsertA "ALL" ([], 40 + CACHE_TTL) [("ALL", ([recW], 35))]) "ALL"
        false 50 (.error ())
      = ([], upsertA "ALL" ([], 40 + CACHE_TTL) [("ALL", ([recW], 35))], false) :=
  all_fail_empty_cached.2 [("R", some "sheet")] (fun _ => .fail)
    [("ALL", ([recW], 35))] [recW] 35 40 50 (.error ())
    (fun _ => Or.inr rfl) (by decide) (by omega) (by decide)

/-! ## Lemmas about the group-and-sum aggregation -/

theorem char_toNat_inj {a b : Char} (h : a.toNat = b.toNat) : a = b := by
  rw [← Char.ofNat_toNat a, ← Char.ofNat_toNat b, h]

theorem string_toList_inj {a b : String} (h : a.toList = b.toList) : a = b := by
  cases a
  cases b
  exact congrArg String.mk h

theorem listLt_nil_right (l : List Char) : listLt l [] = false := by
  cases l <;> rfl

theorem listLt_cons (a b : Char) (as bs : List Char) :
    listLt (a :: as) (b :: bs)
      = if a = b then listLt as bs else decide (a.toNat < b.toNat) := rfl

theorem listLt_asymm : ∀ {a b : List Char},
    listLt a b = true → listLt b a = true → False
  | _, [], h, _ => by rw [listLt_nil_right] at h; exact Bool.noConfusion h
  | [], _ :: _, _, h' => by rw [listLt_nil_right] at h'; exact Bool.noConfusion h'
  | x :: xs, y :: ys, h, h' => by
    rw [listLt_cons] at h h'
    by_cases hxy : x = y
    · rw [if_pos hxy] at h
      rw [if_pos hxy.symm] at h'
      exact listLt_asymm h h'
    · rw [if_neg hxy] at h
      rw [if_neg (Ne.symm hxy)] at h'
      have := of_decide_eq_true h
      have := of_decide_eq_true h'
      omega

theorem listLt_trans : ∀ {a b c : List Char},
    listLt a b = true → listLt b c = true → listLt a c = true
  | _, [], _, h, _ => by rw [listLt_nil_right] at h; exact Bool.noConfusion h
  | _, _ :: _, [], _, h' => by rw [listLt_nil_right] at h'; exact Bool.noConfusion h'
  | [], _ :: _, _ :: _, _, _ => rfl
  | x :: xs, y :: ys, z :: zs, h, h' => by
    rw [listLt_cons] at h h' ⊢
    by_cases hxy : x = y <;> by_cases hyz : y = z
    · subst hxy
      subst hyz
      rw [if_pos rfl] at *
      exact listLt_trans h h'
    · subst hxy
      rw [if_pos rfl] at h
      rw [if_neg hyz] at h' ⊢
      exact h'
    · subst hyz
      rw [if_pos rfl] at h'
      rw [if_neg hxy] at h ⊢
      exact h
    · rw [if_neg hxy] at h
      rw [if_neg hyz] at h'
      have h1 := of_decide_eq_true h
      have h2 := of_decide_eq_true h'
      have hxz : x ≠ z := fun he => by rw [he] at h1; omega
      rw [if_neg hxz]
      exact decide_eq_true (by omega)

theorem listLt_connex : ∀ {a b : List Char},
    a ≠ b → listLt a b = true ∨ listLt b a = true
  | [], [], h => absurd rfl h
  | [], _ :: _, _ => Or.inl rfl
  | _ :: _, [], _ => Or.inr rfl
  | x :: xs, y :: ys, h => by
    rw [listLt_cons, listLt_cons]
    by_cases hxy : x = y
    · subst hxy
      rw [if_pos rfl, if_pos rfl]
      exact listLt_connex fun he => h (by rw [he])
    · rw [if_neg hxy, if_neg (Ne.symm hxy)]
      have : x.toNat ≠ y.toNat := fun he => hxy (char_toNat_inj he)
      rcases Nat.lt_or_ge x.toNat y.toNat with hlt | hge
      · exact Or.inl (decide_eq_true hlt)
      · exact Or.inr (decide_eq_true (by omega))

theorem strLt_asymm {a b : String} (h : strLt a b = true) (h' : strLt b a = true) :
    False := listLt_asymm h h'

theorem strLt_trans {a b c : String} (h : strLt a b = true) (h' : strLt b c = true) :
    strLt a c = true := listLt_trans h h'

theorem strLt_connex {a b : String} (h : a ≠ b) :
    strLt a b = true ∨ strLt b a = true :=
  listLt_connex fun he => h (string_toList_inj he)

theorem mem_insKey {a k : String} : ∀ {l : List String},
    a ∈ insKey k l ↔ a = k ∨ a ∈ l
  | [] => by simp [insKey]
  | x :: xs => by
    rw [insKey]
    split
    · rename_i hkx
      subst hkx
      constructor
      · intro h
        exact Or.inr h
      · rintro (rfl | h)
        · exact List.mem_cons_self _ _
        · exact h
    · split
      · simp [or_comm, or_assoc, or_left_comm]
      · rw [List.mem_cons, List.mem_cons, mem_insKey]
        tauto

theorem pairwise_insKey {k : String} {l : List String}
    (h : l.Pairwise (fun a b => strLt a b = true)) :
    (insKey k l).Pairwise (fun a b => strLt a b = true) := by
  induction l with
  | nil => simp [insKey]
  | cons x xs ih =>
    rw [insKey]
    split
    · exact h
    · rename_i hne
      split
      · rename_i hlt
        refine List.Pairwise.cons ?_ h
        intro y hy
        rcases List.mem_cons.mp hy with rfl | hy
        · exact hlt
        · exact strLt_trans hlt ((List.pairwise_cons.mp h).1 y hy)
      · rename_i hnlt
        have hxk : strLt x k = true := by
          rcases strLt_connex (Ne.symm hne) with hc | hc
          · exact hc
          · exact absurd hc hnlt
        refine List.Pairwise.cons ?_ (ih (List.pairwise_cons.mp h).2)
        intro y hy
        rcases mem_insKey.mp hy with rfl | hy
        · exact hxk
        · exact (List.pairwise_cons.mp h).1 y hy

theorem mem_keysSorted {a : String} {key : Rec → String} : ∀ {rows : List Rec},
    a ∈ keysSorted key rows ↔ ∃ r ∈ rows, key r = a
  | [] => by simp [keysSorted]
  | r :: rest => by
    rw [keysSorted, mem_insKey, mem_keysSorted]
    constructor
    · rintro (rfl | ⟨r', hr', rfl⟩)
      · exact ⟨r, List.mem_cons_self _ _, rfl⟩
      · exact ⟨r', List.mem_cons_of_mem _ hr', rfl⟩
    · rintro ⟨r', hr', rfl⟩
      rcases List.mem_cons.mp hr' with rfl | hr''
      · exact Or.inl rfl
      · exact Or.inr ⟨r', hr'', rfl⟩

theorem pairwise_keysSorted (key : Rec → String) :
    ∀ (rows : List Rec), (keysSorted key rows).Pairwise (fun a b => strLt a b = true)
  | [] => List.Pairwise.nil
  | r :: rest => by
    rw [keysSorted]
    exact pairwise_insKey (pairwise_keysSorted key rest)

theorem nodup_keysSorted (key : Rec → String) (rows : List Rec) :
    (keysSorted key rows).Nodup :=
  (pairwise_keysSorted key rows).imp fun h => by
    intro he
    subst he
    exact strLt_asymm h h

theorem keysSorted_ext {key : Rec → String} {rows rows' : List Rec}
    (h : ∀ r, (∃ x ∈ rows, key x = r) ↔ ∃ x ∈ rows', key x = r) :
    keysSorted key rows = keysSorted key rows' := by
  haveI : IsAntisymm String (fun a b => strLt a b = true) :=
    ⟨fun a b hab hba => absurd hba (fun hc => strLt_asymm hab hc)⟩
  refine List.eq_of_perm_of_sorted ?_ (pairwise_keysSorted key rows)
    (pairwise_keysSorted key rows')
  refine (List.perm_ext_iff_of_nodup (nodup_keysSorted key rows)
    (nodup_keysSorted key rows')).mpr fun a => ?_
  rw [mem_keysSorted, mem_keysSorted]
  exact h a

theorem keysSorted_perm {key : Rec → String} {rows rows' : List Rec}
    (h : rows.Perm rows') : keysSorted key rows = keysSorted key rows' :=
  keysSorted_ext fun r => by
    constructor
    · rintro ⟨x, hx, rfl⟩
      exact ⟨x, h.mem_iff.mp hx, rfl⟩
    · rintro ⟨x, hx, rfl⟩
      exact ⟨x, h.mem_iff.mpr hx, rfl⟩

theorem sumFor_perm {key : Rec → String} {k : String} {rows rows' : List Rec}
    (h : rows.Perm rows') : sumFor key k rows = sumFor key k rows' :=
  ((h.filter _).map Rec.qty).sum_eq

theorem groupSum_perm {key : Rec → String} {rows rows' : List Rec}
    (h : rows.Perm rows') : groupSum key rows = groupSum key rows' := by
  unfold groupSum
  rw [keysSorted_perm h]
  apply List.map_congr_left
  intro k _
  rw [sumFor_perm h]

theorem sumFor_split {key : Rec → String} {k : String} (l₁ l₂ : List Rec)
    {r r₁ r₂ : Rec} (hk₁ : key r₁ = key r) (hk₂ : key r₂ = key r)
    (hq : r₁.qty + r₂.qty = r.qty) :
    sumFor key k (l₁ ++ r₁ :: r₂ :: l₂) = sumFor key k (l₁ ++ r :: l₂) := by
  unfold sumFor
  rw [List.filter_append, List.filter_append, List.filter_cons, List.filter_cons,
    List.filter_cons]
  by_cases hc : key r = k
  · rw [if_pos (by simp [hk₁, hc]), if_pos (by simp [hk₂, hc]), if_pos (by simp [hc])]
    simp only [List.map_append, List.sum_append, List.map_cons, List.sum_cons]
    omega
  · rw [if_neg (by simp [hk₁, hc]), if_neg (by simp [hk₂, hc]), if_neg (by simp [hc])]

theorem groupSum_split {key : Rec → String} (l₁ l₂ : List Rec) {r r₁ r₂ : Rec}
    (hk₁ : key r₁ = key r) (hk₂ : key r₂ = key r) (hq : r₁.qty + r₂.qty = r.qty) :
    groupSum key (l₁ ++ r₁ :: r₂ :: l₂) = groupSum key (l₁ ++ r :: l₂) := by
  unfold groupSum
  rw [@keysSorted_ext key (l₁ ++ r₁ :: r₂ :: l₂) (l₁ ++ r :: l₂) ?hext]
  · apply List.map_congr_left
    intro k _
    rw [sumFor_split l₁ l₂ hk₁ hk₂ hq]
  case hext =>
    intro a
    simp only [List.mem_append, List.mem_cons]
    constructor
    · rintro ⟨x, (hx | rfl | rfl | hx), rfl⟩
      · exact ⟨x, Or.inl hx, rfl⟩
      · exact ⟨r, Or.inr (Or.inl rfl), hk₁.symm⟩
      · exact ⟨r, Or.inr (Or.inl rfl), hk₂.symm⟩
      · exact ⟨x, Or.inr (Or.inr hx), rfl⟩
    · rintro ⟨x, (hx | rfl | hx), rfl⟩
      · exact ⟨x, Or.inl hx, rfl⟩
      · exact ⟨r₁, Or.inr (Or.inl rfl), hk₁⟩
      · exact ⟨x, Or.inr (Or.inr (Or.inr hx)), rfl⟩

theorem count_type_per_region_perm {df df' : Dataset} (t : String) (hp : df.Perm df') :
    count_type_per_region df t = count_type_per_region df' t := by
  unfold count_type_per_region
  by_cases hd : df = []
  · have hd' : df' = [] := by
      rw [hd] at hp
      exact hp.symm.eq_nil
    rw [if_pos hd, if_pos hd']
  · have hd' : df' ≠ [] := fun h => hd (by rw [h] at hp; exact hp.eq_nil)
    rw [if_neg hd, if_neg hd']
    cases hnt : normalize_tech_type t with
    | none => rfl
    | some nt =>
      dsimp only
      have hsub := hp.filter (fun r => decide (r.type_normalized = nt))
      by_cases hse : df.filter (fun r => decide (r.type_normalized = nt)) = []
      · have hse' : df'.filter (fun r => decide (r.type_normalized = nt)) = [] := by
          rw [hse] at hsub
          exact hsub.symm.eq_nil
        rw [if_pos hse, if_pos hse']
      · have hse' : df'.filter (fun r => decide (r.type_normalized = nt)) ≠ [] :=
          fun h => hse (by rw [h] at hsub; exact hsub.eq_nil)
        rw [if_neg hse, if_neg hse', groupSum_perm hsub]

theorem get_status_distribution_any_perm {df df' : Dataset} (hp : df.Perm df') :
    get_status_distribution_any df = get_status_distribution_any df' := by
  unfold get_status_distribution_any
  by_cases hd : df = []
  · have hd' : df' = [] := by
      rw [hd] at hp
      exact hp.symm.eq_nil
    rw [if_pos hd, if_pos hd']
  · have hd' : df' ≠ [] := fun h => hd (by rw [h] at hp; exact hp.eq_nil)
    rw [if_neg hd, if_neg hd', groupSum_perm hp]

theorem view_guard_congr {s₁ s₂ : List Rec} {key : Rec → String}
    (hg : groupSum key s₁ = groupSum key s₂) (he : s₁ = [] ↔ s₂ = []) :
    (if s₁ = [] then ([] : List (String × Int)) else sortQtyDesc (groupSum key s₁))
      = (if s₂ = [] then [] else sortQtyDesc (groupSum key s₂)) := by
  by_cases h₁ : s₁ = []
  · rw [if_pos h₁, if_pos (he.mp h₁)]
  · rw [if_neg h₁, if_neg (fun h => h₁ (he.mpr h)), hg]

theorem count_type_per_region_split (l₁ l₂ : List Rec) (r : Rec) (a b : Int)
    (t : String) (hq : a + b = r.qty) :
    count_type_per_region (l₁ ++ {r with qty := a} :: {r with qty := b} :: l₂) t
      = count_type_per_region (l₁ ++ r :: l₂) t := by
  unfold count_type_per_region
  rw [if_neg (by simp), if_neg (by simp)]
  cases hnt : normalize_tech_type t with
  | none => rfl
  | some nt =>
    dsimp only
    by_cases hc : r.type_normalized = nt
    · have e₁ : (l₁ ++ {r with qty := a} :: {r with qty := b} :: l₂).filter
          (fun x => decide (x.type_normalized = nt))
          = l₁.filter (fun x => decide (x.type_normalized = nt))
            ++ {r with qty := a} :: {r with qty := b}
              :: l₂.filter (fun x => decide (x.type_normalized = nt)) := by
        simp [List.filter_append, List.filter_cons, hc]
      have e₂ : (l₁ ++ r :: l₂).filter (fun x => decide (x.type_normalized = nt))
          = l₁.filter (fun x => decide (x.type_normalized = nt))
            ++ r :: l₂.filter (fun x => decide (x.type_normalized = nt)) := by
        simp [List.filter_append, List.filter_cons, hc]
      rw [e₁, e₂]
      refine view_guard_congr ?_ (by simp)
      exact groupSum_split (l₁.filter _) (l₂.filter _) rfl rfl (by simpa using hq)
    · have e₁ : (l₁ ++ {r with qty := a} :: {r with qty := b} :: l₂).filter
          (fun x => decide (x.type_normalized = nt))
          = l₁.filter (fun x => decide (x.type_normalized = nt))
            ++ l₂.filter (fun x => decide (x.type_normalized = nt)) := by
        simp [List.filter_append, List.filter_cons, hc]
      have e₂ : (l₁ ++ r :: l₂).filter (fun x => decide (x.type_normalized = nt))
          = l₁.filter (fun x => decide (x.type_normalized = nt))
            ++ l₂.filter (fun x => decide (x.type_normalized = nt)) := by
        simp [List.filter_append, List.filter_cons, hc]
      rw [e₁, e₂]

theorem get_status_distribution_any_split (l₁ l₂ : List Rec) (r : Rec) (a b : Int)
    (hq : a + b = r.qty) :
    get_status_distribution_any (l₁ ++ {r with qty := a} :: {r with qty := b} :: l₂)
      = get_status_distribution_any (l₁ ++ r :: l₂) := by
  unfold get_status_distribution_any
  rw [if_neg (by simp), if_neg (by simp)]
  exact congrArg sortQtyDesc (groupSum_split l₁ l₂ rfl rfl (by simpa using hq))

/-- C8: the group-and-sum views are invariant under reordering the records,
and under splitting one record of quantity `a + b` into two records with
identical non-quantity fields and quantities `a` and `b` — stated for
`count_type_per_region` and `get_status_distribution_any`. -/
theorem group_sum_invariant :
    (∀ (df df' : Dataset) (t : String), df.Perm df' →
        count_type_per_region df t = count_type_per_region df' t) ∧
    (∀ (df df' : Dataset), df.Perm df' →
        get_status_distribution_any df = get_status_distribution_any df') ∧
    (∀ (l₁ l₂ : List Rec) (r : Rec) (a b : Int) (t : String), a + b = r.qty →
        count_type_per_region (l₁ ++ {r with qty := a} :: {r with qty := b} :: l₂) t
          = count_type_per_region (l₁ ++ r :: l₂) t) ∧
    (∀ (l₁ l₂ : List Rec) (r : Rec) (a b : Int), a + b = r.qty →
        get_status_distribution_any (l₁ ++ {r with qty := a} :: {r with qty := b} :: l₂)
          = get_status_distribution_any (l₁ ++ r :: l₂)) :=
  ⟨fun _ _ t hp => count_type_per_region_perm t hp,
   fun _ _ hp => get_status_distribution_any_perm hp,
   fun l₁ l₂ r a b t hq => count_type_per_region_split l₁ l₂ r a b t hq,
   fun l₁ l₂ r a b hq => get_status_distribution_any_split l₁ l₂ r a b hq⟩

/-- C8 witness: swapping the two records of `dfTie` leaves the view
unchanged, and splitting the quantity-2 record `rSplit` into 1 + 1 leaves
the status distribution unchanged. -/
theorem group_sum_invariant_witness :
    count_type_per_region dfTie "Трактор"
      = count_type_per_region dfTie.reverse "Трактор" ∧
    get_status_distribution_any ([] ++ {rSplit with qty := 1} :: {rSplit with qty := 1} :: [])
      = get_status_distribution_any ([] ++ rSplit :: []) :=
  ⟨group_sum_invariant.1 dfTie dfTie.reverse "Трактор" (List.reverse_perm dfTie).symm,
   group_sum_invariant.2.2.2 [] [] rSplit 1 1 (by decide)⟩

/-! ## Lemmas about substring occurrence -/

theorem startsWith_iff : ∀ {p l : List Char},
    startsWith p l = true ↔ ∃ t, l = p ++ t
  | [], l => by simp [startsWith]
  | a :: as, [] => by
    simp [startsWith]
  | a :: as, b :: bs => by
    rw [startsWith]
    constructor
    · intro h
      rw [Bool.and_eq_true] at h
      obtain ⟨hab, h'⟩ := h
      obtain ⟨t, rfl⟩ := startsWith_iff.mp h'
      exact ⟨t, by rw [of_decide_eq_true hab]; rfl⟩
    · rintro ⟨t, ht⟩
      cases ht
      rw [Bool.and_eq_true]
      exact ⟨decide_eq_true rfl, startsWith_iff.mpr ⟨t, rfl⟩⟩

theorem occursIn_iff : ∀ {p l : List Char},
    occursIn p l = true ↔ ∃ u v, l = u ++ p ++ v
  | p, [] => by
    rw [occursIn, startsWith_iff]
    constructor
    · rintro ⟨t, ht⟩
      exact ⟨[], t, ht⟩
    · rintro ⟨u, v, huv⟩
      rcases List.append_eq_nil.mp (List.append_eq_nil.mp huv.symm).1 with ⟨rfl, rfl⟩
      exact ⟨v, huv⟩
  | p, c :: rest => by
    rw [occursIn, Bool.or_eq_true, startsWith_iff, occursIn_iff]
    constructor
    · rintro (⟨t, ht⟩ | ⟨u, v, huv⟩)
      · exact ⟨[], t, ht⟩
      · exact ⟨c :: u, v, by rw [huv]; rfl⟩
    · rintro ⟨u, v, huv⟩
      cases u with
      | nil => exact Or.inl ⟨v, by simpa using huv⟩
      | cons x u' =>
        rw [List.cons_append, List.cons_append] at huv
        cases huv
        exact Or.inr ⟨u', v, rfl⟩

theorem occursIn_map (f : Char → Char) {p l : List Char}
    (h : occursIn p l = true) : occursIn (p.map f) (l.map f) = true := by
  obtain ⟨u, v, rfl⟩ := occursIn_iff.mp h
  exact occursIn_iff.mpr ⟨u.map f, v.map f, by simp⟩

theorem mem_of_occursIn {p l : List Char} {c : Char}
    (h : occursIn p l = true) (hc : c ∈ p) : c ∈ l := by
  obtain ⟨u, v, rfl⟩ := occursIn_iff.mp h
  simp [hc]

theorem occursIn_reverse {p l : List Char} (h : occursIn p l = true) :
    occursIn p.reverse l.reverse = true := by
  obtain ⟨u, v, rfl⟩ := occursIn_iff.mp h
  exact occursIn_iff.mpr ⟨v.reverse, u.reverse, by simp⟩

theorem occursIn_dropWhile {c : Char} {cs : List Char}
    (hc : isPySpace c = false) : ∀ {l : List Char},
    occursIn (c :: cs) l = true → occursIn (c :: cs) (l.dropWhile isPySpace) = true
  | [], h => by simp [occursIn, startsWith] at h
  | x :: xs, h => by
    rw [List.dropWhile_cons]
    split
    · rename_i hx
      rw [occursIn, Bool.or_eq_true] at h
      rcases h with h | h
      · obtain ⟨t, ht⟩ := startsWith_iff.mp h
        rw [List.cons_append] at ht
        cases ht
        rw [hx] at hc
        exact Bool.noConfusion hc
      · exact occursIn_dropWhile hc h
    · exact h

theorem occursIn_stripL {c d : Char} {cs ds : List Char}
    (hc : isPySpace c = false) (hd : isPySpace d = false)
    (hrev : (c :: cs).reverse = d :: ds) {l : List Char}
    (h : occursIn (c :: cs) l = true) :
    occursIn (c :: cs) (stripL l) = true := by
  unfold stripL
  have h1 := occursIn_dropWhile hc h
  have h2 := occursIn_reverse h1
  rw [hrev] at h2
  have h3 := occursIn_dropWhile hd h2
  have h4 := occursIn_reverse h3
  rwa [← hrev, List.reverse_reverse] at h4

theorem mem_dropWhile_of_not {c : Char} {p : Char → Bool} :
    ∀ {l : List Char}, c ∈ l → p c = false → c ∈ l.dropWhile p
  | [], h, _ => absurd h (List.not_mem_nil c)
  | x :: xs, h, hp => by
    rw [List.dropWhile_cons]
    split
    · rename_i hx
      rcases List.mem_cons.mp h with rfl | h'
      · rw [hx] at hp
        exact Bool.noConfusion hp
      · exact mem_dropWhile_of_not h' hp
    · exact h

theorem mem_stripL {c : Char} {l : List Char} (h : c ∈ l)
    (hc : isPySpace c = false) : c ∈ stripL l := by
  unfold stripL
  rw [List.mem_reverse]
  exact mem_dropWhile_of_not (List.mem_reverse.mpr (mem_dropWhile_of_not h hc)) hc

/-! ## Lemmas about the float parser -/

theorem splitDigits_eq : ∀ l : List Char, (splitDigits l).1 ++ (splitDigits l).2 = l
  | [] => rfl
  | c :: rest => by
    rw [splitDigits]
    split
    · dsimp only
      rw [List.cons_append, splitDigits_eq rest]
    · rfl

theorem splitDigits_digits : ∀ {l : List Char} {c : Char},
    c ∈ (splitDigits l).1 → c.isDigit = true
  | [], c, h => absurd h (List.not_mem_nil c)
  | x :: rest, c, h => by
    rw [splitDigits] at h
    split at h
    · rename_i hx
      rcases List.mem_cons.mp h with rfl | h'
      · exact hx
      · exact splitDigits_digits h'
    · exact absurd h (List.not_mem_nil c)

theorem digit_isFloatChar {c : Char} (h : c.isDigit = true) : isFloatChar c = true := by
  unfold isFloatChar
  rw [h]
  rfl

theorem parseExpDigits_chars {neg eneg : Bool} {ip fp ds : List Char} {x : PyFloat}
    (h : parseExpDigits neg ip fp eneg ds = some x) :
    ∀ c ∈ ds, isFloatChar c = true := by
  unfold parseExpDigits at h
  split at h
  · rename_i hcond
    intro c hc
    exact digit_isFloatChar (List.all_eq_true.mp hcond.2 c hc)
  · exact absurd h (by simp)

theorem parseExp_chars {neg : Bool} {ip fp : List Char} {x : PyFloat} :
    ∀ {rest : List Char}, parseExp neg ip fp rest = some x →
      ∀ c ∈ rest, isFloatChar c = true
  | [], _, c, hc => absurd hc (List.not_mem_nil c)
  | e :: r, h, c, hc => by
    simp only [parseExp.eq_def] at h
    split at h
    · rename_i he
      split at h
      · rcases List.mem_cons.mp hc with rfl | hc'
        · rcases he with rfl | rfl <;> decide
        · rcases List.mem_cons.mp hc' with rfl | hc''
          · decide
          · exact parseExpDigits_chars h c hc''
      · rcases List.mem_cons.mp hc with rfl | hc'
        · rcases he with rfl | rfl <;> decide
        · rcases List.mem_cons.mp hc' with rfl | hc''
          · decide
          · exact parseExpDigits_chars h c hc''
      · rcases List.mem_cons.mp hc with rfl | hc'
        · rcases he with rfl | rfl <;> decide
        · exact parseExpDigits_chars h c hc'
    · exact absurd h (by simp)

theorem parseNumber_chars {neg : Bool} {l : List Char} {x : PyFloat}
    (h : parseNumber neg l = some x) : ∀ c ∈ l, isFloatChar c = true := by
  unfold parseNumber at h
  intro c hc
  rw [← splitDigits_eq l, List.mem_append] at hc
  rcases hc with hc | hc
  · exact digit_isFloatChar (splitDigits_digits hc)
  · split at h
    · rename_i r heq
      split at h
      · exact absurd h (by simp)
      · rw [heq] at hc
        rcases List.mem_cons.mp hc with rfl | hc'
        · decide
        · rw [← splitDigits_eq r, List.mem_append] at hc'
          rcases hc' with hc' | hc'
          · exact digit_isFloatChar (splitDigits_digits hc')
          · exact parseExp_chars h c hc'
    · split at h
      · exact absurd h (by simp)
      · exact parseExp_chars h c hc

theorem infnan_chars {l : List Char} {pat : String} (h : lowerEq l pat = true)
    (hp : ∀ c ∈ pat.toList, c ∈ (['i', 'n', 'f', 't', 'y', 'a'] : List Char)) :
    ∀ c ∈ l, isFloatChar c = true := by
  intro c hc
  unfold lowerEq at h
  have hmap : List.map pyLowerChar l = pat.toList := of_decide_eq_true h
  have h2 : pyLowerChar c ∈ (['i', 'n', 'f', 't', 'y', 'a'] : List Char) :=
    hp _ (hmap ▸ List.mem_map_of_mem pyLowerChar hc)
  unfold isFloatChar
  rw [decide_eq_true h2]
  simp

theorem parseBody_chars {neg : Bool} {l : List Char} {x : PyFloat}
    (h : parseBody neg l = some x) : ∀ c ∈ l, isFloatChar c = true := by
  unfold parseBody at h
  split at h
  · rename_i hinf
    rcases hinf with hinf | hinf
    · exact infnan_chars hinf (by decide)
    · exact infnan_chars hinf (by decide)
  · split at h
    · rename_i hnan
      exact infnan_chars hnan (by decide)
    · exact parseNumber_chars h

theorem parseSigned_chars {l : List Char} {x : PyFloat}
    (h : parseSigned l = some x) : ∀ c ∈ l, isFloatChar c = true := by
  rw [parseSigned.eq_def] at h
  split at h
  · rename_i r
    intro c hc
    rcases List.mem_cons.mp hc with rfl | hc'
    · decide
    · exact parseBody_chars h c hc'
  · rename_i r
    intro c hc
    rcases List.mem_cons.mp hc with rfl | hc'
    · decide
    · exact parseBody_chars h c hc'
  · exact parseBody_chars h

theorem pyFloat?_chars {s : String} {x : PyFloat} (h : pyFloat? s = some x) :
    ∀ c ∈ stripL s.toList, isFloatChar c = true :=
  parseSigned_chars h

/-! ## The tracker-presence claims -/

/-- C7: the tracker parser returns `false` for `"0"`, `true` for `"1.5"`,
and `false` for every input containing the negative-presence phrase
`"мавжуд эмас"` — even though that phrase contains the positive keyword
`"мавжуд"` as a substring. -/
theorem normalize_tracker_flag_spec :
    normalize_tracker_flag (some "0") = false ∧
    normalize_tracker_flag (some "1.5") = true ∧
    ∀ v : String, pyIn "мавжуд эмас" v = true → normalize_tracker_flag (some v) = false := by
  refine ⟨by decide, by decide, fun v h => ?_⟩
  have hocc : occursIn trackerPhrase v.toList = true := h
  have hph : trackerPhrase = 'м' :: "авжуд эмас".toList := rfl
  have hstrip : occursIn trackerPhrase (stripL v.toList) = true := by
    rw [hph] at hocc ⊢
    exact @occursIn_stripL 'м' 'с' "авжуд эмас".toList "амэ дужвам".toList
      (by decide) (by decide) (by decide) v.toList hocc
  have hm : 'м' ∈ stripL v.toList :=
    mem_of_occursIn hstrip (by rw [hph]; exact List.mem_cons_self _ _)
  have hsne : pyStrip v ≠ "" := by
    intro he
    have h0 : stripL v.toList = [] := congrArg String.toList he
    rw [h0] at hm
    exact absurd hm (List.not_mem_nil _)
  have hmf : 'м' ∈ (stripL v.toList).map (fun c => if c = ',' then '.' else c) :=
    List.mem_map.mpr ⟨'м', hm, rfl⟩
  have hmf2 : 'м' ∈ stripL ((stripL v.toList).map (fun c => if c = ',' then '.' else c)) :=
    mem_stripL hmf (by decide)
  have hlow : occursIn trackerPhrase ((stripL v.toList).map pyLowerChar) = true := by
    have h1 := occursIn_map pyLowerChar hstrip
    rwa [show trackerPhrase.map pyLowerChar = trackerPhrase from by decide] at h1
  unfold normalize_tracker_flag
  dsimp only
  rw [if_neg hsne]
  have hwl : (pyStrip v).toList = stripL v.toList := rfl
  rw [hwl]
  cases hpf : pyFloat? ⟨(stripL v.toList).map (fun c => if c = ',' then '.' else c)⟩ with
  | some xv =>
    have := pyFloat?_chars hpf 'м' hmf2
    exact absurd this (by decide)
  | none =>
    unfold trackerStringChecks
    dsimp only
    rw [if_pos ?hcond]
    case hcond =>
      rw [Bool.or_eq_true]
      exact Or.inl hlow

/-- C7 witness: the phrase itself, with the tracker-technology keyword in
front, parses to `false`. -/
theorem normalize_tracker_flag_spec_witness :
    normalize_tracker_flag (some "GPS мавжуд эмас") = false :=
  normalize_tracker_flag_spec.2.2 "GPS мавжуд эмас" (by decide)

end Bot
